import Mathlib

/-!
# Verification of the ecsm-operator declarative runtime

A shallow embedding, in Lean 4, of the core of the `fx147/ecsm-operator`
repository: the bbolt-backed `Registry` (typed CRUD with a global
resourceVersion counter and event publication, `pkg/registry/service.go`
and `pkg/registry/registry.go`), the `Informer` (real-time event path and
periodic resync over a version-vector cache, `pkg/informer/informer.go`),
and the `ECSMServiceController` (`pkg/controller/service_controller.go`).

Modelling conventions:
* bbolt transactions are fully serialized, so every Registry operation is
  modelled as a pure function from the pre-state to a result, the
  post-state and the list of published events;
* the `uint64` global counter is modelled as `Nat`: it is only ever
  incremented by one per committed transaction, so it cannot overflow in
  any feasible execution and the wrap-around at `2^64` is not modelled;
* Go maps and the bbolt key space are modelled as association lists with
  first-occurrence lookup semantics;
* I/O failures of the underlying database (which Go surfaces as errors
  from `bolt.Tx` operations) are not modelled: every modelled path is the
  non-I/O-failing one;
* `strconv.FormatUint(n, 10)` is embedded as `formatUint` below, which is
  exactly Lean's decimal formatter `Nat.repr`.
-/

/-! ## Decimal formatting (`strconv.FormatUint(·, 10)`)

The Registry stamps `resourceVersion` strings with
`strconv.FormatUint(newRV, 10)`.  We embed that as `Nat.repr` and prove it
injective, which is what the optimistic-concurrency argument needs: two
distinct counter values always yield distinct resourceVersion strings.
-/

def formatUint (n : Nat) : String := Nat.repr n

/-! ## Data model (`pkg/apis/meta/v1/types.go`, `pkg/apis/ecsm/v1/types.go`)

Go `map[string]string` fields are modelled as association lists;
`metav1.Time` is modelled as an abstract instant (`Nat`); `int32`/`int64`
counters are modelled as `Nat`/`Int` (they are bumped by small amounts and
cannot overflow in any feasible execution).
-/

abbrev Time := Nat

abbrev StringMap := List (String × String)

structure TypeMeta where
  kind : String := ""
  apiVersion : String := ""
deriving DecidableEq, Repr

structure ObjectMeta where
  name : String := ""
  ns : String := ""
  uid : String := ""
  labels : StringMap := []
  annotations : StringMap := []
  resourceVersion : String := ""
  creationTimestamp : Time := 0
  deletionTimestamp : Option Time := none
deriving DecidableEq, Repr

abbrev ConditionStatus := String

structure Condition where
  type : String := ""
  status : ConditionStatus := ""
  lastTransitionTime : Time := 0
  reason : String := ""
  message : String := ""
deriving DecidableEq, Repr

structure EnvVar where
  name : String := ""
  value : String := ""
deriving DecidableEq, Repr

abbrev ResourceType := String

structure ResourceRequirements where
  limits : List (ResourceType × String) := []
deriving DecidableEq, Repr

structure VolumeMount where
  name : String := ""
  hostPath : String := ""
  containerPath : String := ""
  readOnly : Bool := false
deriving DecidableEq, Repr

structure HealthCheckSpec where
  initialDelaySeconds : Int := 0
  timeoutSeconds : Int := 0
  periodSeconds : Int := 0
  failureThreshold : Int := 0
deriving DecidableEq, Repr

structure VSOASpec where
  password : String := ""
  port : Option Int := none
  healthCheck : Option HealthCheckSpec := none
deriving DecidableEq, Repr

structure RootSpec where
  path : String := ""
  readOnly : Bool := false
deriving DecidableEq, Repr

structure PlatformSpec where
  os : String := ""
  arch : String := ""
deriving DecidableEq, Repr

structure Device where
  path : String := ""
  access : String := ""
deriving DecidableEq, Repr

structure NetworkSpec where
  ftpd : Bool := false
  telnetd : Bool := false
deriving DecidableEq, Repr

structure SylixOSCPUConfig where
  highestPrio : Option Int := none
  lowestPrio : Option Int := none
deriving DecidableEq, Repr

structure SylixOSMemoryConfig where
  kheapLimit : Option Int := none
deriving DecidableEq, Repr

structure SylixOSConfig where
  devices : List Device := []
  network : Option NetworkSpec := none
  cpu : Option SylixOSCPUConfig := none
  memory : Option SylixOSMemoryConfig := none
deriving DecidableEq, Repr

abbrev ActionType := String

structure PlatformSpecificConfig where
  action : ActionType := ""
  root : Option RootSpec := none
  platform : Option PlatformSpec := none
  sylixos : Option SylixOSConfig := none
deriving DecidableEq, Repr

abbrev ImagePullPolicyType := String

structure ContainerTemplateSpec where
  image : String := ""
  imagePullPolicy : ImagePullPolicyType := ""
  prepull : Bool := false
  hostname : String := ""
  command : List String := []
  env : List EnvVar := []
  resources : Option ResourceRequirements := none
  volumeMounts : List VolumeMount := []
  vsoa : Option VSOASpec := none
  platformSpecific : Option PlatformSpecificConfig := none
deriving DecidableEq, Repr

abbrev DeploymentStrategyType := String

structure DeploymentStrategy where
  type : DeploymentStrategyType := ""
  replicas : Option Int := none
  nodes : List String := []
  nodePool : List String := []
deriving DecidableEq, Repr

abbrev UpgradeStrategyType := String

structure UpgradeStrategy where
  type : UpgradeStrategyType := ""
deriving DecidableEq, Repr

structure ECSMServiceSpec where
  deploymentStrategy : DeploymentStrategy := {}
  upgradeStrategy : UpgradeStrategy := {}
  template : ContainerTemplateSpec := {}
deriving DecidableEq, Repr

structure ECSMServiceStatus where
  replicas : Nat := 0
  readyReplicas : Nat := 0
  observedGeneration : Int := 0
  conditions : List Condition := []
  underlyingServiceID : String := ""
deriving DecidableEq, Repr

structure ECSMService where
  typeMeta : TypeMeta := {}
  meta : ObjectMeta := {}
  spec : ECSMServiceSpec := {}
  status : ECSMServiceStatus := {}
deriving DecidableEq, Repr

/-- The Go zero value `ecsmv1.ECSMService{}` (all fields at their zero
values), as produced by `var deletedService ecsmv1.ECSMService`. -/
def zeroService : ECSMService := {}

/-! ## Association lists (Go maps / the bbolt services bucket)

First-occurrence lookup semantics.  `putVal` replaces the first binding of
the key or appends a fresh one; `delKey` removes the first binding.
-/

def findVal {α : Type} : List (String × α) → String → Option α
  | [], _ => none
  | (k, v) :: rest, key => if k = key then some v else findVal rest key

def putVal {α : Type} : List (String × α) → String → α → List (String × α)
  | [], key, v => [(key, v)]
  | (k, w) :: rest, key, v =>
    if k = key then (key, v) :: rest else (k, w) :: putVal rest key v

def delKey {α : Type} : List (String × α) → String → List (String × α)
  | [], _ => []
  | (k, w) :: rest, key => if k = key then rest else (k, w) :: delKey rest key

/-! ## Registry (`pkg/registry/event.go`, `registry.go`, `service.go`)

The bbolt-backed Registry.  `db.Update` transactions are serialized by
bbolt, so each operation is a pure step from the pre-state; the events the
operation publishes after its transaction commits are returned alongside.
-/

inductive EventType where
  | Added
  | Modified
  | Deleted
deriving DecidableEq, Repr

structure Event where
  type : EventType
  key : String
  object : ECSMService
  resourceVersion : String
deriving DecidableEq, Repr

/-- The typed error kinds the Registry returns
(`k8s.io/apimachinery/pkg/api/errors`: `NewInvalid`, `NewConflict`,
`NewNotFound`, `NewAlreadyExists`). -/
inductive RegErr where
  | invalid
  | conflict
  | notFound
  | alreadyExists
deriving DecidableEq, Repr

/-- The persistent state: the `_metadata` bucket's global counter plus the
`ecsmservices` bucket.  A missing services bucket behaves exactly like an
empty one for every modelled operation, so bucket existence is not tracked
separately. -/
structure RegistryState where
  globalRV : Nat := 0
  services : List (String × ECSMService) := []
deriving DecidableEq, Repr

/-- The state right after `NewRegistry`: the `_metadata` bucket exists but
holds no counter yet (read as 0), and no service was ever written. -/
def initState : RegistryState := {}

/-- `getAndIncrementGlobalRV` (`pkg/registry/registry.go`): read the
big-endian counter (0 when absent), add one, write it back, return the new
value.  The big-endian byte codec round-trips, so only the numeric value is
modelled. -/
def getAndIncrementGlobalRV (currentRV : Nat) : Nat := currentRV + 1

/-- `cache.MetaNamespaceKeyFunc`: `"<namespace>/<name>"`, or just the name
when the namespace is empty. -/
def metaNamespaceKey (ns name : String) : String :=
  if ns = "" then name else ns ++ "/" ++ name

/-- `setServiceDefaults` (`pkg/registry/service.go`): the body is empty. -/
def setServiceDefaults (service : ECSMService) : ECSMService := service

/-- `validateService` (`pkg/registry/service.go`): the body returns `nil`,
so validation never fails. -/
def validateService (_ : ECSMService) : List String := []

/-- `Registry.CreateService` (`pkg/registry/service.go`).  `freshUID` stands
for `uuid.New().String()` and `now` for `time.Now().UTC()`. -/
def createService (st : RegistryState) (service : ECSMService)
    (freshUID : String) (now : Time) :
    Except RegErr ECSMService × RegistryState × List Event :=
  let service := setServiceDefaults service
  if (validateService service).length > 0 then
    (.error .invalid, st, [])
  else
    let key := metaNamespaceKey service.meta.ns service.meta.name
    match findVal st.services key with
    | some _ => (.error .alreadyExists, st, [])
    | none =>
      let newRV := getAndIncrementGlobalRV st.globalRV
      let written : ECSMService := { service with meta := { service.meta with
          resourceVersion := formatUint newRV,
          uid := freshUID,
          creationTimestamp := now } }
      (.ok written,
       { globalRV := newRV, services := putVal st.services key written },
       [{ type := .Added, key := key, object := written,
          resourceVersion := written.meta.resourceVersion }])

/-- `Registry.UpdateService` (`pkg/registry/service.go`): reject an empty
`resourceVersion`; reject a mismatch with `Conflict`; otherwise stamp the
freshly incremented counter, take `uid` and `creationTimestamp` from the
stored object, and write the caller's object (its `spec`, mutable
metadata — and its `status` — as supplied). -/
def updateService (st : RegistryState) (service : ECSMService) :
    Except RegErr ECSMService × RegistryState × List Event :=
  let oldRVStr := service.meta.resourceVersion
  if oldRVStr = "" then
    (.error .invalid, st, [])
  else
    let key := metaNamespaceKey service.meta.ns service.meta.name
    match findVal st.services key with
    | none => (.error .notFound, st, [])
    | some currentService =>
      if currentService.meta.resourceVersion ≠ oldRVStr then
        (.error .conflict, st, [])
      else
        let newRV := getAndIncrementGlobalRV st.globalRV
        let written : ECSMService := { service with meta := { service.meta with
            resourceVersion := formatUint newRV,
            uid := currentService.meta.uid,
            creationTimestamp := currentService.meta.creationTimestamp } }
        (.ok written,
         { globalRV := newRV, services := putVal st.services key written },
         [{ type := .Modified, key := key, object := written,
            resourceVersion := written.meta.resourceVersion }])

/-- `Registry.UpdateServiceStatus` (`pkg/registry/service.go`): deep-copy
the stored object, overwrite only its `status` from the caller's object,
stamp the freshly incremented counter, write it back. -/
def updateServiceStatus (st : RegistryState) (service : ECSMService) :
    Except RegErr ECSMService × RegistryState × List Event :=
  let key := metaNamespaceKey service.meta.ns service.meta.name
  match findVal st.services key with
  | none => (.error .notFound, st, [])
  | some currentService =>
    let newRV := getAndIncrementGlobalRV st.globalRV
    let updatedService : ECSMService := { currentService with
        status := service.status,
        meta := { currentService.meta with resourceVersion := formatUint newRV } }
    (.ok updatedService,
     { globalRV := newRV, services := putVal st.services key updatedService },
     [{ type := .Modified, key := key, object := updatedService,
        resourceVersion := updatedService.meta.resourceVersion }])

/-- `Registry.DeleteService` (`pkg/registry/service.go`): a missing bucket
or key commits nothing and leaves `deletedService` at its zero value, yet
the `Deleted` event is still published after the transaction returns nil;
a present key is read (for the event payload), removed, and the counter is
incremented without stamping anything. -/
def deleteService (st : RegistryState) (ns name : String) :
    Except RegErr Unit × RegistryState × List Event :=
  let key := ns ++ "/" ++ name
  match findVal st.services key with
  | none =>
    (.ok (), st,
     [{ type := .Deleted, key := key, object := zeroService,
        resourceVersion := zeroService.meta.resourceVersion }])
  | some deletedService =>
    (.ok (),
     { globalRV := getAndIncrementGlobalRV st.globalRV,
       services := delKey st.services key },
     [{ type := .Deleted, key := key, object := deletedService,
        resourceVersion := deletedService.meta.resourceVersion }])

/-- `Registry.GetService` (`pkg/registry/service.go`): read-only lookup. -/
def getService (st : RegistryState) (ns name : String) :
    Except RegErr ECSMService :=
  let key := ns ++ "/" ++ name
  match findVal st.services key with
  | none => .error .notFound
  | some service => .ok service

/-! ## Sequences of committed mutations

bbolt serializes `db.Update` transactions, so any set of concurrent
Registry mutations executes as some sequence of the following operations;
`runOps` runs such a sequence and collects the published event stream.
-/

inductive Op where
  | create (service : ECSMService) (freshUID : String) (now : Time)
  | update (service : ECSMService)
  | updateStatus (service : ECSMService)
  | delete (ns name : String)

def applyOp (st : RegistryState) (op : Op) : RegistryState × List Event :=
  match op with
  | .create service freshUID now => (createService st service freshUID now).2
  | .update service => (updateService st service).2
  | .updateStatus service => (updateServiceStatus st service).2
  | .delete ns name => (deleteService st ns name).2

def runOps (st : RegistryState) : List Op → RegistryState × List Event
  | [] => (st, [])
  | op :: rest =>
    let r := applyOp st op
    let rr := runOps r.1 rest
    (rr.1, r.2 ++ rr.2)

/-- The counter value committed by one operation ([] when the operation's
transaction wrote nothing). -/
def commitStamp (st : RegistryState) (op : Op) : List Nat :=
  if (applyOp st op).1.globalRV = st.globalRV then []
  else [(applyOp st op).1.globalRV]

def commitStamps (st : RegistryState) : List Op → List Nat
  | [] => []
  | op :: rest => commitStamp st op ++ commitStamps (applyOp st op).1 rest

/-- Like `commitStamp`, but only for operations that stamp the committed
counter value onto a stored object (creates and the two updates; a delete
commits a counter bump but stamps nothing). -/
def writeStamp (st : RegistryState) (op : Op) : List Nat :=
  match op with
  | .delete _ _ => []
  | _ => commitStamp st op

def writeStamps (st : RegistryState) : List Op → List Nat
  | [] => []
  | op :: rest => writeStamp st op ++ writeStamps (applyOp st op).1 rest

/-- The `resourceVersion`s carried by the `Added`/`Modified` events of a
stream: exactly the versions stamped on stored objects. -/
def stampedRVs (events : List Event) : List String :=
  events.filterMap fun e =>
    match e.type with
    | .Deleted => none
    | _ => some e.resourceVersion

/-! ## Store invariant: stored resourceVersions are stamped counter values -/

/-- Every stored object carries a `resourceVersion` that is the decimal
print of some positive counter value not exceeding the current global
counter.  Holds in `initState` and is preserved by every operation. -/
def rvBound (st : RegistryState) : Prop :=
  ∀ p ∈ st.services, ∃ n ≤ st.globalRV, 0 < n ∧
    p.2.meta.resourceVersion = formatUint n

/-! ## Spec frame machinery (status writes never clobber spec) -/

/-- The spec stored under `key`, if any. -/
def specAt (st : RegistryState) (key : String) : Option ECSMServiceSpec :=
  (findVal st.services key).map (fun s => s.spec)

def exceptOk {ε α : Type} : Except ε α → Bool
  | .ok _ => true
  | .error _ => false

/-- `op`, run from `st`, commits no spec write at `key`: it is a
status-only update, or a spec update of a different key, or a spec update
that fails (Invalid / NotFound / Conflict). -/
def specFrame (st : RegistryState) (op : Op) (key : String) : Prop :=
  match op with
  | .updateStatus _ => True
  | .update service =>
      metaNamespaceKey service.meta.ns service.meta.name ≠ key ∨
        exceptOk (updateService st service).1 = false
  | _ => False

def specFrameRun (st : RegistryState) (ops : List Op) (key : String) : Prop :=
  match ops with
  | [] => True
  | op :: rest => specFrame st op key ∧ specFrameRun (applyOp st op).1 rest key

/-! ## Concrete fixtures for witnesses and counterexamples -/

def exampleSpec1 : ECSMServiceSpec :=
  { template := { image := "nginx@1.25" },
    deploymentStrategy := { type := "Dynamic", replicas := some 3 } }

def exampleSpec2 : ECSMServiceSpec :=
  { template := { image := "nginx@1.26" },
    deploymentStrategy := { type := "Dynamic", replicas := some 1 } }

def exampleStatus : ECSMServiceStatus := { replicas := 3, readyReplicas := 3 }

def exampleStored : ECSMService :=
  { meta := { name := "web", ns := "default", uid := "uid-0",
              resourceVersion := "1", creationTimestamp := 5 },
    spec := exampleSpec1 }

def exampleState : RegistryState :=
  { globalRV := 1, services := [("default/web", exampleStored)] }

/-- An `UpdateService` argument carrying the matching resourceVersion "1"
but a status of its own (the stored status is the zero value). -/
def serviceC3 : ECSMService :=
  { meta := { name := "web", ns := "default", uid := "other-uid",
              resourceVersion := "1", creationTimestamp := 99 },
    spec := exampleSpec2,
    status := exampleStatus }

/-- A `CreateService` argument carrying a non-zero resourceVersion. -/
def serviceWithRV5 : ECSMService :=
  { meta := { name := "web", ns := "default", resourceVersion := "5" },
    spec := exampleSpec1 }

def serviceEmptyRV : ECSMService :=
  { meta := { name := "web", ns := "default", resourceVersion := "" },
    spec := exampleSpec2 }

def serviceBadRV : ECSMService :=
  { meta := { name := "web", ns := "default", resourceVersion := "2" },
    spec := exampleSpec2 }

def serviceC1 : ECSMService :=
  { meta := { name := "web", ns := "default", resourceVersion := "1" },
    spec := exampleSpec2 }

def serviceStatusOnly : ECSMService :=
  { meta := { name := "web", ns := "default" },
    status := exampleStatus }

def serviceNew : ECSMService :=
  { meta := { name := "api", ns := "default" },
    spec := exampleSpec1 }

/-- A second concurrent updater for the same key, also carrying
resourceVersion "1" (the loser of the race once `serviceC1` has won). -/
def serviceC1b : ECSMService :=
  { meta := { name := "web", ns := "default", resourceVersion := "1" },
    spec := exampleSpec1 }

/-! ## Informer (`pkg/informer/informer.go`)

The Notifier keeps a version-vector cache (key → last-known
resourceVersion, a `sync.Map`, modelled as an association list).
`distribute` invokes every registered handler synchronously; the handlers
all receive the same invocation, so emissions are modelled per handler. -/

abbrev VersionCache := List (String × String)

/-- A handler invocation: `Added` events invoke `OnAdd`, `Modified` events
invoke `OnUpdate` (the new object is passed as both old and new — the
informer caches no objects), `Deleted` events invoke `OnDelete`. -/
inductive Callback where
  | onAdd (obj : ECSMService)
  | onUpdate (oldObj newObj : ECSMService)
  | onDelete (obj : ECSMService)
deriving DecidableEq, Repr

/-- `informer.distribute`: the handler method is chosen by the event type
alone. -/
def distribute (eventType : EventType) (obj : ECSMService) : Callback :=
  match eventType with
  | .Added => .onAdd obj
  | .Modified => .onUpdate obj obj
  | .Deleted => .onDelete obj

/-- `informer.processEvent`: the real-time path.  Deleted events drop the
cache entry (if any) and distribute; Added/Modified events are ignored when
the cached version equals the event's, otherwise the new version is stored
and the event distributed. -/
def processEvent (cache : VersionCache) (event : Event) :
    VersionCache × List Callback :=
  let oldRV? := findVal cache event.key
  if event.type = .Deleted then
    match oldRV? with
    | some _ => (delKey cache event.key, [distribute event.type event.object])
    | none => (cache, [])
  else
    match oldRV? with
    | some oldRV =>
      if oldRV = event.resourceVersion then (cache, [])
      else (putVal cache event.key event.resourceVersion,
            [distribute event.type event.object])
    | none => (putVal cache event.key event.resourceVersion,
               [distribute event.type event.object])

/-- `cache.MetaNamespaceKeyFunc` applied to a service object. -/
def serviceKey (service : ECSMService) : String :=
  metaNamespaceKey service.meta.ns service.meta.name

/-- `strings.Split(key, "/")` over the string's character list (the
separator is the single character '/'). -/
def splitSlash (chars : List Char) : List (List Char) :=
  match chars with
  | [] => [[]]
  | c :: rest =>
    let r := splitSlash rest
    if c = '/' then [] :: r
    else
      match r with
      | [] => [[c]]
      | seg :: segs => (c :: seg) :: segs

def splitOnSlash (s : String) : List String :=
  (splitSlash s.data).map (fun seg => String.mk seg)

/-- `cache.SplitMetaNamespaceKey`; the resync ignores its error, which
leaves both parts empty. -/
def splitMetaNamespaceKey (key : String) : String × String :=
  match splitOnSlash key with
  | [name] => ("", name)
  | [ns, name] => (ns, name)
  | _ => ("", "")

/-- The tombstone `resync` synthesizes for a key that disappeared: a fresh
zero object carrying just namespace, name and the last-known
resourceVersion. -/
def tombstone (key rv : String) : ECSMService :=
  { meta := { name := (splitMetaNamespaceKey key).2,
              ns := (splitMetaNamespaceKey key).1,
              resourceVersion := rv } }

/-- The `newVersionMap` built by `resync`'s first loop. -/
def buildVersionMap (items : List ECSMService) : List (String × String) :=
  items.foldl
    (fun m service => putVal m (serviceKey service) service.meta.resourceVersion)
    []

/-- Emissions of `resync`'s first loop (which consults only the pre-resync
`versionCache`): `Added` for unknown keys, `Modified` for changed
versions. -/
def resyncPass2a (cache : VersionCache) (items : List ECSMService) :
    List Callback :=
  items.filterMap fun service =>
    match findVal cache (serviceKey service) with
    | none => some (distribute .Added service)
    | some oldRV =>
      if service.meta.resourceVersion ≠ oldRV then
        some (distribute .Modified service)
      else none

/-- Emissions of `resync`'s second loop: a tombstone `Deleted` for every
cached key that is no longer listed. -/
def resyncPass2b (cache : VersionCache) (newVersionMap : List (String × String)) :
    List Callback :=
  cache.filterMap fun p =>
    if (findVal newVersionMap p.1).isSome then none
    else some (distribute .Deleted (tombstone p.1 p.2))

/-- `resync`'s third phase: delete cache keys absent from `newVersionMap`,
then store every entry of `newVersionMap`. -/
def resyncPass3 (cache : VersionCache) (m : List (String × String)) :
    VersionCache :=
  m.foldl (fun c p => putVal c p.1 p.2)
    (cache.filter (fun p => (findVal m p.1).isSome))

/-- `informer.resync`, parameterized by the item list the Registry's
`ListAllServices` returned (the spec's `L`). -/
def resync (cache : VersionCache) (items : List ECSMService) :
    VersionCache × List Callback :=
  let newVersionMap := buildVersionMap items
  (resyncPass3 cache newVersionMap,
   resyncPass2a cache items ++ resyncPass2b cache newVersionMap)

def eventC6 : Event :=
  { type := .Modified, key := "default/web", object := exampleStored,
    resourceVersion := "3" }

def eventC6Added : Event :=
  { type := .Added, key := "default/web", object := exampleStored,
    resourceVersion := "2" }

def eventC6Deleted : Event :=
  { type := .Deleted, key := "default/web", object := exampleStored,
    resourceVersion := "3" }

/-! ## The listed (key, RV) pairs a resync works from -/

/-- The (key, resourceVersion) pairs of the listed items — the spec's `L`. -/
def listedPairs (items : List ECSMService) : List (String × String) :=
  items.map (fun s => (serviceKey s, s.meta.resourceVersion))

def svcWebV3 : ECSMService :=
  { meta := { name := "web", ns := "default", uid := "uid-0",
              resourceVersion := "3" },
    spec := exampleSpec1 }

def svcApiV4 : ECSMService :=
  { meta := { name := "api", ns := "default", uid := "uid-9",
              resourceVersion := "4" },
    spec := exampleSpec1 }

def cacheC7 : VersionCache := [("default/web", "1"), ("default/gone", "2")]

def itemsC7 : List ECSMService := [svcWebV3, svcApiV4]

/-! ## Controller (`pkg/controller/service_controller.go`)

`reconcile` reads the desired state from the Registry, the observed state
from the platform client (twice: before and after its — currently stubbed —
create/delete actions), computes the new status and writes it back when it
changed.  The outcomes of those four calls form the pass's environment. -/

/-- The observed container fields the controller consults
(`clientset.ContainerInfo`; the remaining fields of the Go struct — ids,
timers, resource usage, node info — are never read by the controller). -/
structure ContainerInfo where
  id : String := ""
  name : String := ""
  status : String := ""
deriving DecidableEq, Repr

/-- `ECSMServiceController.calculateStatus`: every observed container
counts toward `replicas`; a container counts toward `readyReplicas` exactly
when its platform status string is "running" (the source comments: assume
"running" means "ready"); no health-probe verdict exists in the observed
data. -/
def calculateStatus (containers : List ContainerInfo) : ECSMServiceStatus :=
  { replicas := containers.length,
    readyReplicas := containers.foldl
      (fun acc c => if c.status = "running" then acc + 1 else acc) 0 }

/-- Transport-level failure of a platform client call. -/
inductive ClientErr where
  | transport
deriving DecidableEq, Repr

/-- The outcomes of the calls one `reconcile` pass makes, in order:
`Registry.GetService`, `Containers().ListAllByService` (before acting),
`Containers().ListAllByService` (re-observe), and
`Registry.UpdateServiceStatus`. -/
structure ReconcileEnv where
  getService : Except RegErr ECSMService
  listContainers : Except ClientErr (List ContainerInfo)
  listContainersAgain : Except ClientErr (List ContainerInfo)
  updateServiceStatus : Except RegErr ECSMService
deriving Repr

inductive ReconcileErr where
  | regErr (e : RegErr)
  | clientErr (e : ClientErr)
deriving DecidableEq, Repr

/-- `ECSMServiceController.reconcile` (`none` = returns nil): malformed
keys and `NotFound` on the Registry read return nil; any other error —
including the status write's — is returned verbatim; the status write runs
only when the computed status differs from the stored one.  (The
create/delete actions between the two observations are TODO stubs in the
source and have no effect.) -/
def reconcile (key : String) (env : ReconcileEnv) : Option ReconcileErr :=
  if (splitOnSlash key).length > 2 then none
  else
    match env.getService with
    | .error .notFound => none
    | .error e => some (.regErr e)
    | .ok desiredService =>
      match env.listContainers with
      | .error e => some (.clientErr e)
      | .ok _ =>
        match env.listContainersAgain with
        | .error e => some (.clientErr e)
        | .ok finalContainers =>
          if desiredService.status ≠ calculateStatus finalContainers then
            match env.updateServiceStatus with
            | .error e => some (.regErr e)
            | .ok _ => none
          else none

inductive QueueAction where
  | forget
  | addRateLimited
  | dropAndForget
deriving DecidableEq, Repr

def maxRetries : Nat := 15

/-- `ECSMServiceController.handleErr`: nil forgets the key; a non-nil error
is requeued rate-limited while `NumRequeues` is below `maxRetries`, and
dropped (with `Forget`) once the cap is reached. -/
def handleErr (err : Option ReconcileErr) (numRequeues : Nat) : QueueAction :=
  match err with
  | none => .forget
  | some _ =>
    if numRequeues < maxRetries then .addRateLimited
    else .dropAndForget

def runningContainer : ContainerInfo := { id := "c1", status := "running" }

/-- A reconcile environment in which the Registry read succeeds, both
observations succeed (one running container), the stored status is stale,
and the status write fails with `Conflict`. -/
def envC8 : ReconcileEnv :=
  { getService := .ok exampleStored,
    listContainers := .ok [],
    listContainersAgain := .ok [runningContainer],
    updateServiceStatus := .error .conflict }

/-- The claim's counting rule, written from the spec's words for
comparison: a container is ready iff its status is "running" AND the
health probe, if one is configured, reports healthy.  `probeConfigured`
and `healthy` stand for the probe configuration and its verdict — data the
controller's observed `ContainerInfo` does not carry. -/
def claimReadyReplicas (probeConfigured : Bool)
    (healthy : ContainerInfo → Bool) (containers : List ContainerInfo) : Nat :=
  (containers.filter
    (fun c => c.status == "running" && (!probeConfigured || healthy c))).length

/-! ## Theorems -/

/-- With enough fuel, core's `Nat.toDigitsCore` on a positive input produces
exactly the base-10 digits (as characters, most significant first) in front
of the accumulator. -/
theorem toDigitsCore_eq_digits (fuel : Nat) :
    ∀ (n : Nat) (acc : List Char), 0 < n → n < fuel →
      Nat.toDigitsCore 10 fuel n acc
        = ((Nat.digits 10 n).map Nat.digitChar).reverse ++ acc := by
  induction fuel with
  | zero => intro n acc _ h; omega
  | succ f ih =>
    intro n acc hn hfuel
    rw [Nat.toDigitsCore]
    by_cases h : n / 10 = 0
    · simp only [h, if_pos]
      rw [Nat.digits_def' (b := 10) (by norm_num) hn, h]
      simp
    · simp only [h, if_neg, reduceIte]
      have hdiv_lt : n / 10 < n := Nat.div_lt_self hn (by norm_num)
      rw [ih (n / 10) _ (Nat.pos_of_ne_zero h) (by omega)]
      rw [Nat.digits_def' (b := 10) (by norm_num) hn]
      simp

theorem formatUint_pos_eq (n : Nat) (hn : 0 < n) :
    formatUint n = (((Nat.digits 10 n).map Nat.digitChar).reverse).asString := by
  show Nat.repr n = _
  rw [Nat.repr, Nat.toDigits, toDigitsCore_eq_digits (n + 1) n [] hn (Nat.lt_succ_self n)]
  simp

theorem asString_inj {l₁ l₂ : List Char} (h : l₁.asString = l₂.asString) :
    l₁ = l₂ := by
  simpa [List.asString] using congrArg String.data h

theorem digitChar_inj_lt10 :
    ∀ a, a < 10 → ∀ b, b < 10 → Nat.digitChar a = Nat.digitChar b → a = b := by
  decide

theorem map_digitChar_inj :
    ∀ l₁ l₂ : List Nat, (∀ x ∈ l₁, x < 10) → (∀ x ∈ l₂, x < 10) →
      l₁.map Nat.digitChar = l₂.map Nat.digitChar → l₁ = l₂ := by
  intro l₁
  induction l₁ with
  | nil => intro l₂ _ _ h; cases l₂ <;> simp_all
  | cons a t iht =>
    intro l₂ h₁ h₂ h
    cases l₂ with
    | nil => simp_all
    | cons b t₂ =>
      simp only [List.map_cons, List.cons.injEq] at h
      have ha : a = b := digitChar_inj_lt10 a (h₁ a (by simp)) b (h₂ b (by simp)) h.1
      have ht : t = t₂ := iht t₂ (fun x hx => h₁ x (by simp [hx]))
        (fun x hx => h₂ x (by simp [hx])) h.2
      rw [ha, ht]

theorem formatUint_injective : Function.Injective formatUint := by
  intro m n h
  rcases Nat.eq_zero_or_pos m with hm | hm
  · rcases Nat.eq_zero_or_pos n with hn | hn
    · omega
    · exfalso
      subst hm
      rw [formatUint_pos_eq n hn] at h
      have hdata := asString_inj h.symm
      have : (Nat.digits 10 n).map Nat.digitChar = ['0'] := by
        have := congrArg List.reverse hdata
        simpa using this
      have hd : Nat.digits 10 n = [0] := by
        have h10 : (0 : Nat) < 10 := by norm_num
        have := map_digitChar_inj (Nat.digits 10 n) [0]
          (fun x hx => Nat.digits_lt_base (by norm_num) hx)
          (by intro x hx; simp at hx; omega)
          (by simpa using this)
        exact this
      have := Nat.ofDigits_digits 10 n
      rw [hd] at this
      simp [Nat.ofDigits] at this
      omega
  · rcases Nat.eq_zero_or_pos n with hn | hn
    · exfalso
      subst hn
      rw [formatUint_pos_eq m hm] at h
      have hdata := asString_inj h
      have : (Nat.digits 10 m).map Nat.digitChar = ['0'] := by
        have := congrArg List.reverse hdata
        simpa using this
      have hd : Nat.digits 10 m = [0] := by
        have := map_digitChar_inj (Nat.digits 10 m) [0]
          (fun x hx => Nat.digits_lt_base (by norm_num) hx)
          (by intro x hx; simp at hx; omega)
          (by simpa using this)
        exact this
      have := Nat.ofDigits_digits 10 m
      rw [hd] at this
      simp [Nat.ofDigits] at this
      omega
    · rw [formatUint_pos_eq m hm, formatUint_pos_eq n hn] at h
      have hdata := asString_inj h
      have hmap : (Nat.digits 10 m).map Nat.digitChar
          = (Nat.digits 10 n).map Nat.digitChar :=
        List.reverse_injective hdata
      have hd : Nat.digits 10 m = Nat.digits 10 n :=
        map_digitChar_inj _ _
          (fun x hx => Nat.digits_lt_base (by norm_num) hx)
          (fun x hx => Nat.digits_lt_base (by norm_num) hx) hmap
      have h₁ := Nat.ofDigits_digits 10 m
      have h₂ := Nat.ofDigits_digits 10 n
      rw [hd] at h₁
      omega

theorem findVal_putVal_self {α : Type} (l : List (String × α)) (k : String) (v : α) :
    findVal (putVal l k v) k = some v := by
  induction l with
  | nil => simp [putVal, findVal]
  | cons p rest ih =>
    obtain ⟨k', w⟩ := p
    by_cases h : k' = k <;> simp [putVal, findVal, h, ih]

theorem findVal_putVal_ne {α : Type} (l : List (String × α)) (k k' : String)
    (v : α) (h : k' ≠ k) : findVal (putVal l k v) k' = findVal l k' := by
  have hne : ¬ k = k' := fun hh => h hh.symm
  induction l with
  | nil => simp [putVal, findVal, hne]
  | cons p rest ih =>
    obtain ⟨k₀, w⟩ := p
    by_cases h₀ : k₀ = k
    · subst h₀
      simp [putVal, findVal, hne]
    · by_cases h₁ : k₀ = k' <;> simp [putVal, findVal, h₀, h₁, h, ih]

theorem mem_putVal {α : Type} (l : List (String × α)) (k : String) (v : α)
    (p : String × α) (hp : p ∈ putVal l k v) : p ∈ l ∨ p = (k, v) := by
  induction l with
  | nil => simp [putVal] at hp; simp [hp]
  | cons q rest ih =>
    obtain ⟨k₀, w⟩ := q
    by_cases h₀ : k₀ = k
    · simp [putVal, h₀] at hp
      rcases hp with h | h
      · right; simp [h]
      · left; simp [h]
    · simp [putVal, h₀] at hp
      rcases hp with h | h
      · left; simp [h]
      · rcases ih h with h' | h'
        · left; simp [h']
        · right; exact h'

theorem mem_delKey {α : Type} (l : List (String × α)) (k : String)
    (p : String × α) (hp : p ∈ delKey l k) : p ∈ l := by
  induction l with
  | nil => simp [delKey] at hp
  | cons q rest ih =>
    obtain ⟨k₀, w⟩ := q
    by_cases h₀ : k₀ = k
    · simp [delKey, h₀] at hp
      simp [hp]
    · simp [delKey, h₀] at hp
      rcases hp with h | h
      · simp [h]
      · simp [ih h]

theorem applyOp_globalRV (st : RegistryState) (op : Op) :
    (applyOp st op).1.globalRV = st.globalRV ∨
      (applyOp st op).1.globalRV = st.globalRV + 1 := by
  cases op with
  | create service freshUID now =>
    simp only [applyOp, createService, setServiceDefaults, validateService,
      getAndIncrementGlobalRV]
    split
    · exact Or.inl rfl
    · split
      · exact Or.inl rfl
      · exact Or.inr rfl
  | update service =>
    simp only [applyOp, updateService, getAndIncrementGlobalRV]
    split
    · exact Or.inl rfl
    · split
      · exact Or.inl rfl
      · split
        · exact Or.inl rfl
        · exact Or.inr rfl
  | updateStatus service =>
    simp only [applyOp, updateServiceStatus, getAndIncrementGlobalRV]
    split
    · exact Or.inl rfl
    · exact Or.inr rfl
  | delete ns name =>
    simp only [applyOp, deleteService, getAndIncrementGlobalRV]
    split
    · exact Or.inl rfl
    · exact Or.inr rfl

theorem stampedRVs_applyOp (st : RegistryState) (op : Op) :
    stampedRVs (applyOp st op).2 = (writeStamp st op).map formatUint := by
  cases op with
  | create service freshUID now =>
    simp only [writeStamp, commitStamp, applyOp, createService,
      setServiceDefaults, validateService, getAndIncrementGlobalRV]
    split
    · simp [stampedRVs]
    · split
      · simp [stampedRVs]
      · simp [stampedRVs]
  | update service =>
    simp only [writeStamp, commitStamp, applyOp, updateService,
      getAndIncrementGlobalRV]
    split
    · simp [stampedRVs]
    · split
      · simp [stampedRVs]
      · split
        · simp [stampedRVs]
        · simp [stampedRVs]
  | updateStatus service =>
    simp only [writeStamp, commitStamp, applyOp, updateServiceStatus,
      getAndIncrementGlobalRV]
    split
    · simp [stampedRVs]
    · simp [stampedRVs]
  | delete ns name =>
    simp only [writeStamp, applyOp, deleteService, getAndIncrementGlobalRV]
    split
    · simp [stampedRVs]
    · simp [stampedRVs]

theorem writeStamp_sublist (st : RegistryState) (op : Op) :
    (writeStamp st op).Sublist (commitStamp st op) := by
  cases op with
  | create service freshUID now => exact List.Sublist.refl _
  | update service => exact List.Sublist.refl _
  | updateStatus service => exact List.Sublist.refl _
  | delete ns name => exact List.nil_sublist _

theorem writeStamps_sublist (st : RegistryState) (ops : List Op) :
    (writeStamps st ops).Sublist (commitStamps st ops) := by
  induction ops generalizing st with
  | nil => exact List.Sublist.refl _
  | cons op rest ih =>
    exact List.Sublist.append (writeStamp_sublist st op) (ih (applyOp st op).1)

theorem commitStamps_pos_pairwise (st : RegistryState) (ops : List Op) :
    (∀ x ∈ commitStamps st ops, st.globalRV < x) ∧
      (commitStamps st ops).Pairwise (· < ·) := by
  induction ops generalizing st with
  | nil => simp [commitStamps]
  | cons op rest ih =>
    obtain ⟨ihmem, ihpw⟩ := ih (applyOp st op).1
    rcases applyOp_globalRV st op with hc | hc
    · have hstamp : commitStamp st op = [] := by simp [commitStamp, hc]
      constructor
      · intro x hx
        simp only [commitStamps, hstamp, List.nil_append] at hx
        have := ihmem x hx
        omega
      · simpa [commitStamps, hstamp] using ihpw
    · have hstamp : commitStamp st op = [st.globalRV + 1] := by
        simp [commitStamp, hc]
      constructor
      · intro x hx
        simp only [commitStamps, hstamp, List.cons_append, List.nil_append,
          List.mem_cons] at hx
        rcases hx with h | h
        · omega
        · have := ihmem x h
          omega
      · simp only [commitStamps, hstamp, List.cons_append, List.nil_append,
          List.pairwise_cons]
        refine ⟨fun x hx => ?_, ihpw⟩
        have := ihmem x hx
        omega

theorem stampedRVs_runOps (st : RegistryState) (ops : List Op) :
    stampedRVs (runOps st ops).2 = (writeStamps st ops).map formatUint := by
  induction ops generalizing st with
  | nil => simp [runOps, stampedRVs, writeStamps]
  | cons op rest ih =>
    simp only [runOps, writeStamps, List.map_append]
    rw [← stampedRVs_applyOp st op, ← ih (applyOp st op).1]
    simp [stampedRVs, List.filterMap_append]

theorem rvBound_initState : rvBound initState := by
  intro p hp
  simp [initState, RegistryState.services] at hp

theorem rvBound_mono {st : RegistryState} (h : rvBound st) (g : Nat)
    (hg : st.globalRV ≤ g) :
    ∀ p ∈ st.services, ∃ n ≤ g, 0 < n ∧ p.2.meta.resourceVersion = formatUint n := by
  intro p hp
  obtain ⟨n, hn₁, hn₂, hn₃⟩ := h p hp
  exact ⟨n, le_trans hn₁ hg, hn₂, hn₃⟩

theorem rvBound_applyOp (st : RegistryState) (op : Op) (h : rvBound st) :
    rvBound (applyOp st op).1 := by
  cases op with
  | create service freshUID now =>
    simp only [applyOp, createService, setServiceDefaults, validateService,
      getAndIncrementGlobalRV]
    split
    · exact h
    · split
      · exact h
      · intro p hp
        rcases mem_putVal _ _ _ _ hp with hold | hnew
        · exact rvBound_mono h _ (Nat.le_succ _) p hold
        · refine ⟨st.globalRV + 1, le_refl _, by omega, ?_⟩
          simp [hnew]
  | update service =>
    simp only [applyOp, updateService, getAndIncrementGlobalRV]
    split
    · exact h
    · split
      · exact h
      · split
        · exact h
        · intro p hp
          rcases mem_putVal _ _ _ _ hp with hold | hnew
          · exact rvBound_mono h _ (Nat.le_succ _) p hold
          · refine ⟨st.globalRV + 1, le_refl _, by omega, ?_⟩
            simp [hnew]
  | updateStatus service =>
    simp only [applyOp, updateServiceStatus, getAndIncrementGlobalRV]
    split
    · exact h
    · intro p hp
      rcases mem_putVal _ _ _ _ hp with hold | hnew
      · exact rvBound_mono h _ (Nat.le_succ _) p hold
      · refine ⟨st.globalRV + 1, le_refl _, by omega, ?_⟩
        simp [hnew]
  | delete ns name =>
    simp only [applyOp, deleteService, getAndIncrementGlobalRV]
    split
    · exact h
    · intro p hp
      exact rvBound_mono h _ (Nat.le_succ _) p (mem_delKey _ _ _ hp)

/-- A positive counter value never prints as the empty string, so a stored
`resourceVersion` always passes `UpdateService`'s empty-string guard. -/
theorem formatUint_ne_empty (n : Nat) : formatUint n ≠ "" := by
  rcases Nat.eq_zero_or_pos n with h | h
  · subst h
    decide
  · rw [formatUint_pos_eq n h]
    intro hc
    have hdata : ((Nat.digits 10 n).map Nat.digitChar).reverse = ([] : List Char) := by
      simpa [List.asString] using congrArg String.data hc
    have hmap : (Nat.digits 10 n).map Nat.digitChar = [] := by
      simpa using congrArg List.reverse hdata
    have hdig : Nat.digits 10 n = [] := by
      simpa using hmap
    have hne : n = 0 := by
      by_contra hn
      exact Nat.digits_ne_nil_iff_ne_zero.mpr hn hdig
    omega

theorem specAt_updateServiceStatus (st : RegistryState) (service : ECSMService)
    (k : String) : specAt (updateServiceStatus st service).2.1 k = specAt st k := by
  cases hf : findVal st.services (metaNamespaceKey service.meta.ns service.meta.name) with
  | none => simp [updateServiceStatus, hf]
  | some cur =>
    by_cases hk : k = metaNamespaceKey service.meta.ns service.meta.name
    · subst hk
      simp [updateServiceStatus, hf, specAt, findVal_putVal_self]
    · simp [updateServiceStatus, hf, specAt, findVal_putVal_ne, hk]

theorem updateService_fail_state (st : RegistryState) (service : ECSMService)
    (h : exceptOk (updateService st service).1 = false) :
    (updateService st service).2.1 = st := by
  by_cases h0 : service.meta.resourceVersion = ""
  · simp [updateService, h0]
  · cases hf : findVal st.services (metaNamespaceKey service.meta.ns service.meta.name) with
    | none => simp [updateService, h0, hf]
    | some cur =>
      by_cases h1 : cur.meta.resourceVersion ≠ service.meta.resourceVersion
      · simp [updateService, h0, hf, h1]
      · exfalso
        simp [updateService, h0, hf, h1, exceptOk] at h

theorem specAt_updateService_ne (st : RegistryState) (service : ECSMService)
    (k : String)
    (h : metaNamespaceKey service.meta.ns service.meta.name ≠ k) :
    specAt (updateService st service).2.1 k = specAt st k := by
  by_cases h0 : service.meta.resourceVersion = ""
  · simp [updateService, h0]
  · cases hf : findVal st.services (metaNamespaceKey service.meta.ns service.meta.name) with
    | none => simp [updateService, h0, hf]
    | some cur =>
      by_cases h1 : cur.meta.resourceVersion ≠ service.meta.resourceVersion
      · simp [updateService, h0, hf, h1]
      · have hk : k ≠ metaNamespaceKey service.meta.ns service.meta.name :=
          fun hh => h hh.symm
        simp [updateService, h0, hf, h1, specAt, findVal_putVal_ne, hk]

theorem specAt_specFrame (st : RegistryState) (op : Op) (k : String)
    (h : specFrame st op k) : specAt (applyOp st op).1 k = specAt st k := by
  cases op with
  | create service freshUID now => simp [specFrame] at h
  | update service =>
    rcases h with h | h
    · exact specAt_updateService_ne st service k h
    · show specAt (updateService st service).2.1 k = specAt st k
      rw [updateService_fail_state st service h]
  | updateStatus service => exact specAt_updateServiceStatus st service k
  | delete ns name => simp [specFrame] at h

theorem specAt_specFrameRun (st : RegistryState) (ops : List Op) (k : String)
    (h : specFrameRun st ops k) : specAt (runOps st ops).1 k = specAt st k := by
  induction ops generalizing st with
  | nil => rfl
  | cons op rest ih =>
    obtain ⟨h₁, h₂⟩ := h
    show specAt (runOps (applyOp st op).1 rest).1 k = specAt st k
    rw [ih (applyOp st op).1 h₂, specAt_specFrame st op k h₁]

/-! ### Inversion lemmas for the Registry operations -/

theorem findVal_mem {α : Type} (l : List (String × α)) (k : String) (v : α)
    (h : findVal l k = some v) : (k, v) ∈ l := by
  induction l with
  | nil => simp [findVal] at h
  | cons p rest ih =>
    obtain ⟨k₀, w⟩ := p
    by_cases h₀ : k₀ = k
    · subst h₀
      simp [findVal] at h
      simp [h]
    · simp [findVal, h₀] at h
      simp [ih h]

theorem createService_ok_inv (st : RegistryState) (service : ECSMService)
    (freshUID : String) (now : Time) (w : ECSMService) (st' : RegistryState)
    (evs : List Event)
    (h : createService st service freshUID now = (.ok w, st', evs)) :
    findVal st.services (metaNamespaceKey service.meta.ns service.meta.name)
      = none ∧
    w = { service with meta := { service.meta with
        resourceVersion := formatUint (st.globalRV + 1),
        uid := freshUID, creationTimestamp := now } } ∧
    st' = { globalRV := st.globalRV + 1,
            services := putVal st.services
              (metaNamespaceKey service.meta.ns service.meta.name) w } ∧
    evs = [{ type := .Added,
             key := metaNamespaceKey service.meta.ns service.meta.name,
             object := w, resourceVersion := w.meta.resourceVersion }] := by
  cases hf : findVal st.services (metaNamespaceKey service.meta.ns service.meta.name) with
  | some cur => simp [createService, setServiceDefaults, validateService, hf] at h
  | none =>
    simp only [createService, setServiceDefaults, validateService,
      getAndIncrementGlobalRV, List.length_nil, gt_iff_lt, lt_self_iff_false,
      if_false, hf, Prod.mk.injEq, Except.ok.injEq, reduceIte] at h
    obtain ⟨hw, hst, hev⟩ := h
    subst hw
    refine ⟨rfl, rfl, hst.symm, hev.symm⟩

theorem updateService_ok_inv (st : RegistryState) (service : ECSMService)
    (w : ECSMService) (st' : RegistryState) (evs : List Event)
    (h : updateService st service = (.ok w, st', evs)) :
    ∃ cur,
      findVal st.services (metaNamespaceKey service.meta.ns service.meta.name)
        = some cur ∧
      service.meta.resourceVersion ≠ "" ∧
      cur.meta.resourceVersion = service.meta.resourceVersion ∧
      w = { service with meta := { service.meta with
          resourceVersion := formatUint (st.globalRV + 1),
          uid := cur.meta.uid,
          creationTimestamp := cur.meta.creationTimestamp } } ∧
      st' = { globalRV := st.globalRV + 1,
              services := putVal st.services
                (metaNamespaceKey service.meta.ns service.meta.name) w } ∧
      evs = [{ type := .Modified,
               key := metaNamespaceKey service.meta.ns service.meta.name,
               object := w, resourceVersion := w.meta.resourceVersion }] := by
  by_cases h0 : service.meta.resourceVersion = ""
  · simp [updateService, h0] at h
  · cases hf : findVal st.services (metaNamespaceKey service.meta.ns service.meta.name) with
    | none => simp [updateService, h0, hf] at h
    | some cur =>
      by_cases h1 : cur.meta.resourceVersion ≠ service.meta.resourceVersion
      · simp [updateService, h0, hf, h1] at h
      · simp only [updateService, h0, hf, h1, getAndIncrementGlobalRV,
          if_false, Prod.mk.injEq, Except.ok.injEq, reduceIte] at h
        obtain ⟨hw, hst, hev⟩ := h
        subst hw
        exact ⟨cur, rfl, h0, not_not.mp h1, rfl, hst.symm, hev.symm⟩

theorem updateServiceStatus_ok_inv (st : RegistryState) (service : ECSMService)
    (w : ECSMService) (st' : RegistryState) (evs : List Event)
    (h : updateServiceStatus st service = (.ok w, st', evs)) :
    ∃ cur,
      findVal st.services (metaNamespaceKey service.meta.ns service.meta.name)
        = some cur ∧
      w = { cur with
            status := service.status,
            meta := { cur.meta with
              resourceVersion := formatUint (st.globalRV + 1) } } ∧
      st' = { globalRV := st.globalRV + 1,
              services := putVal st.services
                (metaNamespaceKey service.meta.ns service.meta.name) w } ∧
      evs = [{ type := .Modified,
               key := metaNamespaceKey service.meta.ns service.meta.name,
               object := w, resourceVersion := w.meta.resourceVersion }] := by
  cases hf : findVal st.services (metaNamespaceKey service.meta.ns service.meta.name) with
  | none => simp [updateServiceStatus, hf] at h
  | some cur =>
    simp only [updateServiceStatus, hf, getAndIncrementGlobalRV,
      Prod.mk.injEq, Except.ok.injEq] at h
    obtain ⟨hw, hst, hev⟩ := h
    subst hw
    exact ⟨cur, rfl, rfl, hst.symm, hev.symm⟩

/-- C3 (code bug): at the failing input — stored object `exampleStored`
(zero status, uid "uid-0", creationTimestamp 5) and an `UpdateService`
argument with matching resourceVersion "1" but its own status — the call
succeeds, preserves `uid` and `creationTimestamp` and overwrites `spec` as
claimed, but the caller's `status` IS written to the store: the stored
status after the call equals the argument's status and differs from the
previously stored one, contradicting the claim that status is preserved. -/
theorem C3_status_not_preserved :
    exceptOk (updateService exampleState serviceC3).1 = true ∧
    (findVal (updateService exampleState serviceC3).2.1.services
        "default/web").map (fun s => s.status) = some serviceC3.status ∧
    serviceC3.status ≠ exampleStored.status ∧
    (findVal (updateService exampleState serviceC3).2.1.services
        "default/web").map (fun s => s.meta.uid) = some exampleStored.meta.uid ∧
    (findVal (updateService exampleState serviceC3).2.1.services
        "default/web").map (fun s => s.meta.creationTimestamp)
      = some exampleStored.meta.creationTimestamp ∧
    (findVal (updateService exampleState serviceC3).2.1.services
        "default/web").map (fun s => s.spec) = some serviceC3.spec := by
  decide

/-- C4 (amended): `CreateService` rejects an existing `(namespace, name)`
key with `AlreadyExists` and leaves the store unchanged; on a fresh key it
— without ever inspecting the supplied resourceVersion — assigns the fresh
uid, sets the creation timestamp, atomically increments the global counter
by one, stamps the new resourceVersion on the object, writes it, and
publishes exactly one `Added` event carrying it.  (Validation runs first
but `validateService` never fails in the source.) -/
theorem C4_createService_behaviour (st : RegistryState) (service : ECSMService)
    (freshUID : String) (now : Time) :
    (∀ cur, findVal st.services
        (metaNamespaceKey service.meta.ns service.meta.name) = some cur →
       createService st service freshUID now = (.error .alreadyExists, st, [])) ∧
    (findVal st.services (metaNamespaceKey service.meta.ns service.meta.name)
        = none →
       ∃ w, createService st service freshUID now =
           (.ok w,
            { globalRV := st.globalRV + 1,
              services := putVal st.services
                (metaNamespaceKey service.meta.ns service.meta.name) w },
            [{ type := .Added,
               key := metaNamespaceKey service.meta.ns service.meta.name,
               object := w,
               resourceVersion := formatUint (st.globalRV + 1) }]) ∧
         w.meta.uid = freshUID ∧
         w.meta.creationTimestamp = now ∧
         w.meta.resourceVersion = formatUint (st.globalRV + 1) ∧
         w.spec = service.spec ∧
         w.status = service.status ∧
         w.meta.labels = service.meta.labels) := by
  constructor
  · intro cur hf
    simp [createService, setServiceDefaults, validateService, hf]
  · intro hf
    refine ⟨{ service with meta := { service.meta with
        resourceVersion := formatUint (st.globalRV + 1),
        uid := freshUID, creationTimestamp := now } },
      ?_, rfl, rfl, rfl, rfl, rfl, rfl⟩
    simp [createService, setServiceDefaults, validateService, hf,
      getAndIncrementGlobalRV]

/-- C4, counterexample to the claim as stated: a `CreateService` call whose
argument carries the non-zero resourceVersion "5" is not rejected — on the
empty store it succeeds, and the supplied resourceVersion is silently
overwritten with the stamped "1". -/
theorem C4_counterexample_nonzero_rv_accepted :
    exceptOk (createService initState serviceWithRV5 "uid-1" 7).1 = true ∧
    (findVal (createService initState serviceWithRV5 "uid-1" 7).2.1.services
        "default/web").map (fun w => w.meta.resourceVersion) = some "1" := by
  decide

theorem C4_witness :
    createService exampleState exampleStored "uid-9" 9
      = (.error .alreadyExists, exampleState, []) ∧
    (∃ w, createService initState serviceWithRV5 "uid-1" 7 =
        (.ok w,
         { globalRV := initState.globalRV + 1,
           services := putVal initState.services
             (metaNamespaceKey serviceWithRV5.meta.ns serviceWithRV5.meta.name) w },
         [{ type := .Added,
            key := metaNamespaceKey serviceWithRV5.meta.ns serviceWithRV5.meta.name,
            object := w,
            resourceVersion := formatUint (initState.globalRV + 1) }]) ∧
       w.meta.uid = "uid-1" ∧ w.meta.creationTimestamp = 7 ∧
       w.meta.resourceVersion = formatUint (initState.globalRV + 1) ∧
       w.spec = serviceWithRV5.spec ∧ w.status = serviceWithRV5.status ∧
       w.meta.labels = serviceWithRV5.meta.labels) := by
  constructor
  · exact (C4_createService_behaviour exampleState exampleStored "uid-9" 9).1
      exampleStored (by decide)
  · exact (C4_createService_behaviour initState serviceWithRV5 "uid-1" 7).2
      (by decide)

/-- C10: `DeleteService` of an absent key (or missing bucket) returns nil,
leaves the state — in particular the global counter — unchanged, and still
publishes a `Deleted` event for that key carrying the zero-valued object
with an empty resourceVersion; and every `DeleteService` call returns nil
and publishes exactly one `Deleted` event for that key. -/
theorem C10_deleteService_absent_publishes (st : RegistryState)
    (ns name : String) :
    (findVal st.services (ns ++ "/" ++ name) = none →
       deleteService st ns name =
         (.ok (), st,
          [{ type := .Deleted, key := ns ++ "/" ++ name, object := zeroService,
             resourceVersion := "" }])) ∧
    (deleteService st ns name).1 = .ok () ∧
    (deleteService st ns name).2.2.length = 1 ∧
    (∀ e ∈ (deleteService st ns name).2.2,
       e.type = .Deleted ∧ e.key = ns ++ "/" ++ name) := by
  cases hf : findVal st.services (ns ++ "/" ++ name) with
  | none =>
    refine ⟨fun _ => ?_, ?_, ?_, ?_⟩ <;>
      simp [deleteService, hf, zeroService]
  | some cur =>
    refine ⟨fun hc => by simp [hf] at hc, ?_, ?_, ?_⟩ <;>
      simp [deleteService, hf]

theorem C10_witness :
    deleteService exampleState "prod" "gone" =
      (.ok (), exampleState,
       [{ type := .Deleted, key := "prod" ++ "/" ++ "gone", object := zeroService,
          resourceVersion := "" }]) := by
  exact (C10_deleteService_absent_publishes exampleState "prod" "gone").1
    (by decide)

/-- C1: for every `UpdateService` call on an existing stored object: an
empty supplied resourceVersion fails with `Invalid`; a supplied
resourceVersion that differs from the stored one fails with `Conflict` and
leaves the store unchanged; a matching one succeeds and stamps a
resourceVersion that is (numerically) strictly greater than the supplied
one — after which any further `UpdateService` on the same key carrying the
same supplied resourceVersion (each loser of a race, serialized by bbolt)
fails with `Conflict`, so exactly one such call succeeds. -/
theorem C1_updateService_optimistic_concurrency
    (st : RegistryState) (service : ECSMService) :
    (service.meta.resourceVersion = "" →
       updateService st service = (.error .invalid, st, [])) ∧
    (∀ cur, findVal st.services
          (metaNamespaceKey service.meta.ns service.meta.name) = some cur →
       cur.meta.resourceVersion ≠ service.meta.resourceVersion →
       service.meta.resourceVersion ≠ "" →
       updateService st service = (.error .conflict, st, [])) ∧
    (rvBound st →
     ∀ cur, findVal st.services
          (metaNamespaceKey service.meta.ns service.meta.name) = some cur →
       cur.meta.resourceVersion = service.meta.resourceVersion →
       ∃ w st' evs, updateService st service = (.ok w, st', evs) ∧
         (∃ a b, service.meta.resourceVersion = formatUint a ∧
            w.meta.resourceVersion = formatUint b ∧ a < b) ∧
         (∀ service₂,
            metaNamespaceKey service₂.meta.ns service₂.meta.name
              = metaNamespaceKey service.meta.ns service.meta.name →
            service₂.meta.resourceVersion = service.meta.resourceVersion →
            updateService st' service₂ = (.error .conflict, st', []))) := by
  refine ⟨?_, ?_, ?_⟩
  · intro h0
    simp [updateService, h0]
  · intro cur hf hne h0
    simp [updateService, h0, hf, hne]
  · intro hwf cur hf heq
    obtain ⟨n, hn_le, hn_pos, hrv⟩ := hwf _ (findVal_mem _ _ _ hf)
    have h0 : service.meta.resourceVersion ≠ "" := by
      rw [← heq, hrv]
      exact formatUint_ne_empty n
    have h1 : ¬ (cur.meta.resourceVersion ≠ service.meta.resourceVersion) := by
      simp [heq]
    rcases hres : updateService st service with ⟨res, st', evs⟩
    cases res with
    | error e =>
      exfalso
      have hok : exceptOk (updateService st service).1 = true := by
        simp [updateService, h0, hf, h1, exceptOk]
      rw [hres] at hok
      simp [exceptOk] at hok
    | ok w =>
      obtain ⟨cur', hf', hne', heq', hw, hst, hev⟩ :=
        updateService_ok_inv st service w st' evs hres
      have hcur : cur' = cur := by
        rw [hf] at hf'
        exact (Option.some.inj hf').symm
      subst hcur
      refine ⟨w, st', evs, rfl, ⟨n, st.globalRV + 1, ?_, ?_, ?_⟩, ?_⟩
      · rw [← heq]
        exact hrv
      · rw [hw]
      · omega
      · intro service₂ hkey hrv₂
        have hfw : findVal st'.services
            (metaNamespaceKey service₂.meta.ns service₂.meta.name) = some w := by
          rw [hkey, hst]
          exact findVal_putVal_self _ _ _
        have h0₂ : service₂.meta.resourceVersion ≠ "" := by
          rw [hrv₂, ← heq, hrv]
          exact formatUint_ne_empty n
        have hmis : w.meta.resourceVersion ≠ service₂.meta.resourceVersion := by
          rw [hw, hrv₂, ← heq, hrv]
          simp only [ne_eq]
          intro hcontra
          have := formatUint_injective hcontra
          omega
        simp [updateService, h0₂, hfw, hmis]

theorem C1_witness :
    updateService exampleState serviceEmptyRV
      = (.error .invalid, exampleState, []) ∧
    updateService exampleState serviceBadRV
      = (.error .conflict, exampleState, []) ∧
    (∃ w st' evs, updateService exampleState serviceC1 = (.ok w, st', evs) ∧
       (∃ a b, serviceC1.meta.resourceVersion = formatUint a ∧
          w.meta.resourceVersion = formatUint b ∧ a < b) ∧
       updateService st' serviceC1b = (.error .conflict, st', [])) := by
  refine ⟨?_, ?_, ?_⟩
  · exact (C1_updateService_optimistic_concurrency exampleState serviceEmptyRV).1 rfl
  · exact (C1_updateService_optimistic_concurrency exampleState serviceBadRV).2.1
      exampleStored (by decide) (by decide) (by decide)
  · obtain ⟨w, st', evs, hstep, hab, hconc⟩ :=
      (C1_updateService_optimistic_concurrency exampleState serviceC1).2.2
        (by
          intro p hp
          simp only [exampleState, List.mem_singleton] at hp
          subst hp
          exact ⟨1, by decide, by decide, by decide⟩)
        exampleStored (by decide) (by decide)
    exact ⟨w, st', evs, hstep, hab, hconc serviceC1b (by decide) (by decide)⟩

/-- C2: a successful `UpdateServiceStatus` takes `spec` and every metadata
field other than `resourceVersion` (name, namespace, uid, labels,
annotations, creationTimestamp — and the type meta and deletion timestamp)
unchanged from the stored object, writes the caller's `status`, stamps the
new resourceVersion, and touches no other key; consequently, once a
successful `UpdateService` has written a spec, any further operations that
commit no spec write at that key — status updates, failed spec updates,
spec updates of other keys — leave the stored spec equal to the one that
last successful `UpdateService` wrote. -/
theorem C2_status_updates_never_clobber_spec
    (st : RegistryState) (service : ECSMService) :
    (∀ w st' evs, updateServiceStatus st service = (.ok w, st', evs) →
       ∃ cur, findVal st.services
           (metaNamespaceKey service.meta.ns service.meta.name) = some cur ∧
         findVal st'.services
           (metaNamespaceKey service.meta.ns service.meta.name) = some w ∧
         w.spec = cur.spec ∧
         w.typeMeta = cur.typeMeta ∧
         w.meta.name = cur.meta.name ∧
         w.meta.ns = cur.meta.ns ∧
         w.meta.uid = cur.meta.uid ∧
         w.meta.labels = cur.meta.labels ∧
         w.meta.annotations = cur.meta.annotations ∧
         w.meta.creationTimestamp = cur.meta.creationTimestamp ∧
         w.meta.deletionTimestamp = cur.meta.deletionTimestamp ∧
         w.status = service.status ∧
         w.meta.resourceVersion = formatUint (st.globalRV + 1) ∧
         (∀ k, k ≠ metaNamespaceKey service.meta.ns service.meta.name →
            findVal st'.services k = findVal st.services k)) ∧
    (∀ w st' evs, updateService st service = (.ok w, st', evs) →
       ∀ ops, specFrameRun st' ops
           (metaNamespaceKey service.meta.ns service.meta.name) →
         specAt (runOps st' ops).1
             (metaNamespaceKey service.meta.ns service.meta.name)
           = some service.spec) := by
  constructor
  · intro w st' evs h
    obtain ⟨cur, hf, hw, hst, hev⟩ :=
      updateServiceStatus_ok_inv st service w st' evs h
    subst hw
    refine ⟨cur, hf, ?_, rfl, rfl, rfl, rfl, rfl, rfl, rfl, rfl, rfl, rfl,
      rfl, ?_⟩
    · rw [hst]
      exact findVal_putVal_self _ _ _
    · intro k hk
      rw [hst]
      exact findVal_putVal_ne _ _ _ _ hk
  · intro w st' evs h ops hframe
    obtain ⟨cur, hf, h0, heq, hw, hst, hev⟩ :=
      updateService_ok_inv st service w st' evs h
    have hspec : specAt st'
        (metaNamespaceKey service.meta.ns service.meta.name)
        = some service.spec := by
      rw [hst]
      simp [specAt, findVal_putVal_self, hw]
    rw [specAt_specFrameRun st' ops _ hframe, hspec]

theorem C2_witness :
    (∃ w st' evs,
       updateServiceStatus exampleState serviceStatusOnly = (.ok w, st', evs) ∧
       w.spec = exampleStored.spec ∧
       w.meta.uid = exampleStored.meta.uid ∧
       w.status = serviceStatusOnly.status) ∧
    (∃ w st' evs, updateService exampleState serviceC1 = (.ok w, st', evs) ∧
       specAt (runOps st' [Op.updateStatus serviceStatusOnly]).1
           (metaNamespaceKey serviceC1.meta.ns serviceC1.meta.name)
         = some serviceC1.spec) := by
  constructor
  · rcases hres : updateServiceStatus exampleState serviceStatusOnly
      with ⟨res, st', evs⟩
    cases res with
    | error e =>
      exfalso
      have hok : exceptOk (updateServiceStatus exampleState serviceStatusOnly).1
          = true := by decide
      rw [hres] at hok
      simp [exceptOk] at hok
    | ok w =>
      obtain ⟨cur, hf, hw', hsp, htm, hnm, hns, huid, hlab, hann, hct, hdt,
        hstat, hrv, hrest⟩ :=
        (C2_status_updates_never_clobber_spec exampleState serviceStatusOnly).1
          w st' evs hres
      have hcur : cur = exampleStored := by
        have : findVal exampleState.services
            (metaNamespaceKey serviceStatusOnly.meta.ns
              serviceStatusOnly.meta.name) = some exampleStored := by decide
        rw [this] at hf
        exact Option.some.inj hf.symm
      subst hcur
      exact ⟨w, st', evs, rfl, hsp, huid, hstat⟩
  · rcases hres : updateService exampleState serviceC1 with ⟨res, st', evs⟩
    cases res with
    | error e =>
      exfalso
      have hok : exceptOk (updateService exampleState serviceC1).1 = true := by
        decide
      rw [hres] at hok
      simp [exceptOk] at hok
    | ok w =>
      refine ⟨w, st', evs, rfl, ?_⟩
      exact (C2_status_updates_never_clobber_spec exampleState serviceC1).2
        w st' evs hres [Op.updateStatus serviceStatusOnly] ⟨trivial, trivial⟩

/-- C5: each successful mutation (create, update, status update, delete of
a present key) commits exactly one increment of the global counter, and a
no-op delete leaves the state unchanged while any operation changes the
counter by at most one; across every sequence of mutations, the
resourceVersions stamped on stored objects (the `Added`/`Modified` event
stream) are the decimal prints of a strictly increasing sequence of
counter values — store-wide, since there is a single counter; and the
first object created in an empty store receives resourceVersion "1". -/
theorem C5_monotonic_versioning :
    (∀ st service freshUID now w st' evs,
       createService st service freshUID now = (.ok w, st', evs) →
         st'.globalRV = st.globalRV + 1) ∧
    (∀ st service w st' evs,
       updateService st service = (.ok w, st', evs) →
         st'.globalRV = st.globalRV + 1) ∧
    (∀ st service w st' evs,
       updateServiceStatus st service = (.ok w, st', evs) →
         st'.globalRV = st.globalRV + 1) ∧
    (∀ st ns name cur, findVal st.services (ns ++ "/" ++ name) = some cur →
       (deleteService st ns name).2.1.globalRV = st.globalRV + 1) ∧
    (∀ st ns name, findVal st.services (ns ++ "/" ++ name) = none →
       (deleteService st ns name).2.1 = st) ∧
    (∀ st op, (applyOp st op).1.globalRV = st.globalRV ∨
       (applyOp st op).1.globalRV = st.globalRV + 1) ∧
    (∀ st ops, ∃ stamps : List Nat,
       stampedRVs (runOps st ops).2 = stamps.map formatUint ∧
       stamps.Pairwise (· < ·)) ∧
    (∀ service freshUID now, ∃ w st' evs,
       createService initState service freshUID now = (.ok w, st', evs) ∧
       w.meta.resourceVersion = "1") := by
  refine ⟨?_, ?_, ?_, ?_, ?_, ?_, ?_, ?_⟩
  · intro st service freshUID now w st' evs h
    obtain ⟨-, -, hst, -⟩ := createService_ok_inv st service freshUID now w st' evs h
    rw [hst]
  · intro st service w st' evs h
    obtain ⟨cur, -, -, -, -, hst, -⟩ := updateService_ok_inv st service w st' evs h
    rw [hst]
  · intro st service w st' evs h
    obtain ⟨cur, -, -, hst, -⟩ := updateServiceStatus_ok_inv st service w st' evs h
    rw [hst]
  · intro st ns name cur hf
    simp [deleteService, hf, getAndIncrementGlobalRV]
  · intro st ns name hf
    simp [deleteService, hf]
  · exact applyOp_globalRV
  · intro st ops
    exact ⟨writeStamps st ops, stampedRVs_runOps st ops,
      List.Pairwise.sublist (writeStamps_sublist st ops)
        (commitStamps_pos_pairwise st ops).2⟩
  · intro service freshUID now
    refine ⟨{ service with meta := { service.meta with
        resourceVersion := formatUint (initState.globalRV + 1),
        uid := freshUID, creationTimestamp := now } },
      { globalRV := initState.globalRV + 1,
        services := putVal initState.services
          (metaNamespaceKey service.meta.ns service.meta.name)
          { service with meta := { service.meta with
              resourceVersion := formatUint (initState.globalRV + 1),
              uid := freshUID, creationTimestamp := now } } },
      [{ type := .Added,
         key := metaNamespaceKey service.meta.ns service.meta.name,
         object := { service with meta := { service.meta with
             resourceVersion := formatUint (initState.globalRV + 1),
             uid := freshUID, creationTimestamp := now } },
         resourceVersion := formatUint (initState.globalRV + 1) }],
      ?_, rfl⟩
    simp [createService, setServiceDefaults, validateService, initState,
      findVal, getAndIncrementGlobalRV]

theorem C5_witness :
    (∃ w st' evs,
       createService exampleState serviceNew "uid-2" 6 = (.ok w, st', evs) ∧
       st'.globalRV = exampleState.globalRV + 1) ∧
    (deleteService exampleState "default" "web").2.1.globalRV
      = exampleState.globalRV + 1 ∧
    (∃ stamps : List Nat,
       stampedRVs (runOps exampleState
         [Op.delete "default" "web", Op.create serviceNew "uid-2" 6]).2
         = stamps.map formatUint ∧
       stamps.Pairwise (· < ·)) ∧
    (∃ w st' evs,
       createService initState serviceNew "uid-2" 6 = (.ok w, st', evs) ∧
       w.meta.resourceVersion = "1") := by
  refine ⟨?_, ?_, ?_, ?_⟩
  · rcases hres : createService exampleState serviceNew "uid-2" 6
      with ⟨res, st', evs⟩
    cases res with
    | error e =>
      exfalso
      have hok : exceptOk (createService exampleState serviceNew "uid-2" 6).1
          = true := by decide
      rw [hres] at hok
      simp [exceptOk] at hok
    | ok w =>
      exact ⟨w, st', evs, rfl,
        C5_monotonic_versioning.1 exampleState serviceNew "uid-2" 6 w st' evs hres⟩
  · exact C5_monotonic_versioning.2.2.2.1 exampleState "default" "web"
      exampleStored (by decide)
  · exact C5_monotonic_versioning.2.2.2.2.2.2.1 exampleState
      [Op.delete "default" "web", Op.create serviceNew "uid-2" 6]
  · exact C5_monotonic_versioning.2.2.2.2.2.2.2 serviceNew "uid-2" 6

/-- C6 (amended): the real-time path stores the event's resourceVersion and
distributes whenever the key is uncached or cached with a different
version, ignores Added/Modified events whose cached version equals the
event's, ignores Deleted events for uncached keys, and removes the entry
and emits OnDelete for Deleted events on cached keys — but the non-delete
callback emitted is chosen by the event type alone (`Added` → OnAdd,
`Modified` → OnUpdate), not by whether the key was cached. -/
theorem C6_processEvent_policy (cache : VersionCache) (event : Event) :
    (event.type ≠ .Deleted → findVal cache event.key = none →
       processEvent cache event
         = (putVal cache event.key event.resourceVersion,
            [distribute event.type event.object])) ∧
    (event.type ≠ .Deleted →
       findVal cache event.key = some event.resourceVersion →
       processEvent cache event = (cache, [])) ∧
    (∀ rv', event.type ≠ .Deleted → findVal cache event.key = some rv' →
       rv' ≠ event.resourceVersion →
       processEvent cache event
         = (putVal cache event.key event.resourceVersion,
            [distribute event.type event.object])) ∧
    (event.type = .Deleted → findVal cache event.key = none →
       processEvent cache event = (cache, [])) ∧
    (∀ rv', event.type = .Deleted → findVal cache event.key = some rv' →
       processEvent cache event
         = (delKey cache event.key, [.onDelete event.object])) ∧
    (∀ obj, distribute .Added obj = .onAdd obj) ∧
    (∀ obj, distribute .Modified obj = .onUpdate obj obj) := by
  refine ⟨?_, ?_, ?_, ?_, ?_, fun _ => rfl, fun _ => rfl⟩
  · intro ht hf
    simp [processEvent, ht, hf]
  · intro ht hf
    simp [processEvent, ht, hf]
  · intro rv' ht hf hne
    simp [processEvent, ht, hf, hne]
  · intro ht hf
    simp [processEvent, ht, hf]
  · intro rv' ht hf
    simp [processEvent, ht, hf, distribute]

/-- C6, counterexample to the claim as stated: a `Modified` event for a key
absent from the version cache emits `OnUpdate`, not the `OnAdd` the claim's
policy table prescribes for an uncached key. -/
theorem C6_counterexample_modified_uncached :
    processEvent [] eventC6
      = ([("default/web", "3")], [.onUpdate exampleStored exampleStored]) ∧
    Callback.onAdd exampleStored ∉ (processEvent [] eventC6).2 := by
  decide

theorem C6_witness :
    processEvent [] eventC6Added
      = (putVal [] eventC6Added.key eventC6Added.resourceVersion,
         [distribute eventC6Added.type eventC6Added.object]) ∧
    processEvent [("default/web", "3")] eventC6Deleted
      = (delKey [("default/web", "3")] eventC6Deleted.key,
         [.onDelete eventC6Deleted.object]) ∧
    processEvent [("default/web", "2")] eventC6Added
      = ([("default/web", "2")], []) := by
  refine ⟨?_, ?_, ?_⟩
  · exact (C6_processEvent_policy [] eventC6Added).1 (by decide) (by decide)
  · exact (C6_processEvent_policy [("default/web", "3")] eventC6Deleted).2.2.2.2.1
      "3" (by decide) (by decide)
  · exact (C6_processEvent_policy [("default/web", "2")] eventC6Added).2.1
      (by decide) (by decide)

theorem findVal_eq_none_iff {α : Type} (l : List (String × α)) (k : String) :
    findVal l k = none ↔ k ∉ l.map Prod.fst := by
  induction l with
  | nil => simp [findVal]
  | cons p rest ih =>
    obtain ⟨k₀, v⟩ := p
    by_cases h : k₀ = k
    · subst h
      simp [findVal]
    · have h' : ¬ k = k₀ := fun hh => h hh.symm
      simp [findVal, h, h', ih]

theorem findVal_foldl_putVal (m : List (String × String))
    (c : List (String × String)) (k : String)
    (hnd : (m.map Prod.fst).Nodup) :
    findVal (m.foldl (fun c p => putVal c p.1 p.2) c) k
      = match findVal m k with
        | some v => some v
        | none => findVal c k := by
  induction m generalizing c with
  | nil => simp [findVal]
  | cons p rest ih =>
    obtain ⟨k₀, v₀⟩ := p
    simp only [List.map_cons, List.nodup_cons] at hnd
    obtain ⟨hk₀, hnd'⟩ := hnd
    simp only [List.foldl_cons]
    rw [ih (putVal c k₀ v₀) hnd']
    by_cases h : k₀ = k
    · subst h
      have hrest : findVal rest k₀ = none := (findVal_eq_none_iff rest k₀).mpr hk₀
      simp [findVal, hrest, findVal_putVal_self]
    · have h' : ¬ k = k₀ := fun hh => h hh.symm
      cases hr : findVal rest k with
      | some v => simp [findVal, h, hr]
      | none => simp [findVal, h, hr, findVal_putVal_ne c k₀ k v₀ h']

theorem buildVersionMap_eq_foldl (items : List ECSMService) :
    buildVersionMap items
      = (listedPairs items).foldl (fun c p => putVal c p.1 p.2) [] := by
  simp [buildVersionMap, listedPairs, List.foldl_map]

theorem listedPairs_keys (items : List ECSMService) :
    (listedPairs items).map Prod.fst = items.map serviceKey := by
  simp [listedPairs, List.map_map, Function.comp]

theorem findVal_buildVersionMap (items : List ECSMService) (k : String)
    (hnd : (items.map serviceKey).Nodup) :
    findVal (buildVersionMap items) k = findVal (listedPairs items) k := by
  rw [buildVersionMap_eq_foldl]
  have hnd' : ((listedPairs items).map Prod.fst).Nodup := by
    rw [listedPairs_keys]
    exact hnd
  rw [findVal_foldl_putVal _ _ _ hnd']
  cases h : findVal (listedPairs items) k <;> simp [findVal]

theorem findVal_filter_isSome_none {α : Type} (l : List (String × α))
    (m : List (String × String)) (k : String) (hm : findVal m k = none) :
    findVal (l.filter (fun p => (findVal m p.1).isSome)) k = none := by
  induction l with
  | nil => simp [findVal]
  | cons p rest ih =>
    obtain ⟨k₀, v₀⟩ := p
    by_cases hp : (findVal m k₀).isSome
    · by_cases h : k₀ = k
      · subst h
        rw [hm] at hp
        simp at hp
      · simp [List.filter_cons, hp, findVal, h, ih]
    · simp [List.filter_cons, hp, ih]

theorem findVal_resyncPass3 (cache : VersionCache)
    (m : List (String × String)) (k : String)
    (hnd : (m.map Prod.fst).Nodup) :
    findVal (resyncPass3 cache m) k = findVal m k := by
  show findVal (m.foldl (fun c p => putVal c p.1 p.2) _) k = _
  rw [findVal_foldl_putVal _ _ _ hnd]
  cases h : findVal m k with
  | some v => rfl
  | none => exact findVal_filter_isSome_none cache m k h

theorem findVal_listedPairs_self (items : List ECSMService) (s : ECSMService)
    (hs : s ∈ items) (hnd : (items.map serviceKey).Nodup) :
    findVal (listedPairs items) (serviceKey s)
      = some s.meta.resourceVersion := by
  induction items with
  | nil => simp at hs
  | cons t rest ih =>
    simp only [List.map_cons, List.nodup_cons] at hnd
    obtain ⟨ht, hnd'⟩ := hnd
    rcases List.mem_cons.mp hs with h | h
    · subst h
      simp [listedPairs, findVal]
    · have hne : ¬ serviceKey t = serviceKey s := by
        intro hc
        exact ht (hc ▸ List.mem_map_of_mem serviceKey h)
      simp only [listedPairs, List.map_cons, findVal, hne, if_false, reduceIte]
      exact ih h hnd'

theorem keys_putVal_subset {α : Type} (l : List (String × α)) (k : String)
    (v : α) (x : String) (hx : x ∈ (putVal l k v).map Prod.fst) :
    x ∈ l.map Prod.fst ∨ x = k := by
  obtain ⟨q, hq, hxq⟩ := List.mem_map.mp hx
  rcases mem_putVal l k v q hq with h | h
  · exact Or.inl (hxq ▸ List.mem_map_of_mem Prod.fst h)
  · right
    rw [← hxq, h]

theorem putVal_keys_nodup {α : Type} (l : List (String × α)) (k : String)
    (v : α) (h : (l.map Prod.fst).Nodup) :
    ((putVal l k v).map Prod.fst).Nodup := by
  induction l with
  | nil => simp [putVal]
  | cons p rest ih =>
    obtain ⟨k₀, w⟩ := p
    simp only [List.map_cons, List.nodup_cons] at h
    obtain ⟨hk₀, hrest⟩ := h
    by_cases h₀ : k₀ = k
    · subst h₀
      simp only [putVal, if_pos, List.map_cons, List.nodup_cons, reduceIte]
      exact ⟨hk₀, hrest⟩
    · simp only [putVal, h₀, if_false, List.map_cons, List.nodup_cons, reduceIte]
      refine ⟨?_, ih hrest⟩
      intro hc
      rcases keys_putVal_subset rest k v k₀ hc with h | h
      · exact hk₀ h
      · exact h₀ h

theorem foldl_putVal_keys_nodup (m : List (String × String))
    (c : List (String × String)) (hc : (c.map Prod.fst).Nodup) :
    ((m.foldl (fun c p => putVal c p.1 p.2) c).map Prod.fst).Nodup := by
  induction m generalizing c with
  | nil => exact hc
  | cons p rest ih => exact ih _ (putVal_keys_nodup c p.1 p.2 hc)

theorem buildVersionMap_keys_nodup (items : List ECSMService) :
    ((buildVersionMap items).map Prod.fst).Nodup := by
  rw [buildVersionMap_eq_foldl]
  exact foldl_putVal_keys_nodup _ [] (by simp)

/-- C7: one resync pass, with the listed items `L` (keys unique, as a store
listing's are) and cache snapshot `C`: it emits `OnAdd` for every listed
item whose key is not cached, `OnUpdate` for every listed item whose cached
resourceVersion differs from the listed one, and `OnDelete` of a synthesized
tombstone (carrying namespace, name and the last-known resourceVersion) for
every cached key that is no longer listed; these are the only emissions;
and after the pass the cache holds exactly the listed (key, RV) pairs. -/
theorem C7_resync_deltas (cache : VersionCache) (items : List ECSMService)
    (hnd : (items.map serviceKey).Nodup) :
    (∀ s ∈ items, findVal cache (serviceKey s) = none →
       Callback.onAdd s ∈ (resync cache items).2) ∧
    (∀ s ∈ items, ∀ rv', findVal cache (serviceKey s) = some rv' →
       s.meta.resourceVersion ≠ rv' →
       Callback.onUpdate s s ∈ (resync cache items).2) ∧
    (∀ p ∈ cache, p.1 ∉ items.map serviceKey →
       Callback.onDelete (tombstone p.1 p.2) ∈ (resync cache items).2) ∧
    (∀ cb ∈ (resync cache items).2,
       (∃ s ∈ items, findVal cache (serviceKey s) = none ∧ cb = .onAdd s) ∨
       (∃ s ∈ items, ∃ rv', findVal cache (serviceKey s) = some rv' ∧
          s.meta.resourceVersion ≠ rv' ∧ cb = .onUpdate s s) ∨
       (∃ p ∈ cache, p.1 ∉ items.map serviceKey ∧
          cb = .onDelete (tombstone p.1 p.2))) ∧
    (∀ s ∈ items, findVal (resync cache items).1 (serviceKey s)
       = some s.meta.resourceVersion) ∧
    (∀ k, k ∉ items.map serviceKey → findVal (resync cache items).1 k = none) := by
  have hkeys : ∀ k, k ∉ items.map serviceKey →
      findVal (buildVersionMap items) k = none := by
    intro k hk
    rw [findVal_buildVersionMap items k hnd, findVal_eq_none_iff, listedPairs_keys]
    exact hk
  have hnd' : ((listedPairs items).map Prod.fst).Nodup := by
    rw [listedPairs_keys]
    exact hnd
  refine ⟨?_, ?_, ?_, ?_, ?_, ?_⟩
  · intro s hs hf
    refine List.mem_append_left _ (List.mem_filterMap.mpr ⟨s, hs, ?_⟩)
    simp [hf, distribute]
  · intro s hs rv' hf hne
    refine List.mem_append_left _ (List.mem_filterMap.mpr ⟨s, hs, ?_⟩)
    simp [hf, hne, distribute]
  · intro p hp hk
    refine List.mem_append_right _ (List.mem_filterMap.mpr ⟨p, hp, ?_⟩)
    simp [hkeys p.1 hk, distribute]
  · intro cb hcb
    rcases List.mem_append.mp hcb with hmem | hmem
    · obtain ⟨s, hs, heq⟩ := List.mem_filterMap.mp hmem
      cases hfv : findVal cache (serviceKey s) with
      | none =>
        left
        rw [hfv] at heq
        simp [distribute] at heq
        exact ⟨s, hs, hfv, heq.symm⟩
      | some rv' =>
        right
        left
        rw [hfv] at heq
        by_cases hne : s.meta.resourceVersion ≠ rv'
        · simp [hne, distribute] at heq
          exact ⟨s, hs, rv', hfv, hne, heq.symm⟩
        · simp [hne] at heq
    · obtain ⟨p, hp, heq⟩ := List.mem_filterMap.mp hmem
      right
      right
      by_cases hin : (findVal (buildVersionMap items) p.1).isSome
      · simp [hin] at heq
      · simp [hin, distribute] at heq
        refine ⟨p, hp, ?_, heq.symm⟩
        simp only [Option.isSome] at hin
        have : findVal (buildVersionMap items) p.1 = none := by
          cases hh : findVal (buildVersionMap items) p.1 with
          | none => rfl
          | some v =>
            rw [hh] at hin
            simp at hin
        rw [findVal_buildVersionMap items p.1 hnd, findVal_eq_none_iff,
          listedPairs_keys] at this
        exact this
  · intro s hs
    show findVal (resyncPass3 cache (buildVersionMap items)) (serviceKey s)
      = some s.meta.resourceVersion
    rw [findVal_resyncPass3 cache (buildVersionMap items) (serviceKey s)
        (buildVersionMap_keys_nodup items),
      findVal_buildVersionMap items (serviceKey s) hnd]
    exact findVal_listedPairs_self items s hs hnd
  · intro k hk
    show findVal (resyncPass3 cache (buildVersionMap items)) k = none
    rw [findVal_resyncPass3 cache (buildVersionMap items) k
        (buildVersionMap_keys_nodup items)]
    exact hkeys k hk

theorem C7_witness :
    Callback.onAdd svcApiV4 ∈ (resync cacheC7 itemsC7).2 ∧
    Callback.onUpdate svcWebV3 svcWebV3 ∈ (resync cacheC7 itemsC7).2 ∧
    Callback.onDelete (tombstone "default/gone" "2")
      ∈ (resync cacheC7 itemsC7).2 ∧
    findVal (resync cacheC7 itemsC7).1 (serviceKey svcWebV3)
      = some svcWebV3.meta.resourceVersion ∧
    findVal (resync cacheC7 itemsC7).1 "default/gone" = none := by
  have h := C7_resync_deltas cacheC7 itemsC7 (by decide)
  exact ⟨h.1 svcApiV4 (by decide) (by decide),
    h.2.1 svcWebV3 (by decide) "1" (by decide) (by decide),
    h.2.2.1 ("default/gone", "2") (by decide) (by decide),
    h.2.2.2.2.1 svcWebV3 (by decide),
    h.2.2.2.2.2 "default/gone" (by decide)⟩

/-- C8 (amended): when the status write at the end of reconcile returns a
Conflict error, reconcile does NOT treat it as success — it returns the
error verbatim, and `handleErr` then requeues the key rate-limited (while
`NumRequeues` is below the retry cap), so the key IS rate-limit-requeued
for that conflict. -/
theorem C8_conflict_returned_and_requeued (key : String) (env : ReconcileEnv)
    (desired : ECSMService) (cs₁ cs₂ : List ContainerInfo) :
    (splitOnSlash key).length ≤ 2 →
    env.getService = .ok desired →
    env.listContainers = .ok cs₁ →
    env.listContainersAgain = .ok cs₂ →
    desired.status ≠ calculateStatus cs₂ →
    env.updateServiceStatus = .error .conflict →
    reconcile key env = some (.regErr .conflict) ∧
    (∀ n, n < maxRetries →
       handleErr (reconcile key env) n = .addRateLimited) := by
  intro hkey hget hlist1 hlist2 hne hupd
  have hk2 : ¬ ((splitOnSlash key).length > 2) := by omega
  have hrec : reconcile key env = some (.regErr .conflict) := by
    simp [reconcile, hk2, hget, hlist1, hlist2, hne, hupd]
  refine ⟨hrec, ?_⟩
  intro n hn
  rw [hrec]
  simp [handleErr, hn]

/-- C8, counterexample to the claim as stated: in `envC8` the status write
returns `Conflict` and reconcile returns that error — not nil — and
`handleErr` rate-limit-requeues the key. -/
theorem C8_counterexample_conflict_not_success :
    reconcile "default/web" envC8 = some (.regErr .conflict) ∧
    reconcile "default/web" envC8 ≠ none ∧
    handleErr (reconcile "default/web" envC8) 0 = .addRateLimited := by
  decide

theorem C8_witness :
    reconcile "default/web" envC8 = some (.regErr .conflict) ∧
    handleErr (reconcile "default/web" envC8) 3 = .addRateLimited := by
  have h := C8_conflict_returned_and_requeued "default/web" envC8 exampleStored
    [] [runningContainer] (by decide) rfl rfl rfl (by decide) rfl
  exact ⟨h.1, h.2 3 (by decide)⟩

theorem foldl_count_running (containers : List ContainerInfo) (acc : Nat) :
    containers.foldl (fun acc c => if c.status = "running" then acc + 1 else acc) acc
      = acc + (containers.filter (fun c => c.status == "running")).length := by
  induction containers generalizing acc with
  | nil => simp
  | cons c rest ih =>
    by_cases h : c.status = "running"
    · simp only [List.foldl_cons, List.filter_cons, h, if_pos, beq_iff_eq,
        if_true, List.length_cons, ih, reduceIte]
      omega
    · simp only [List.foldl_cons, List.filter_cons, h, if_neg, beq_iff_eq,
        if_false, ih, reduceIte]

/-- C9 (amended): in the status the controller computes, `replicas` is the
total number of observed containers, and a container counts toward
`readyReplicas` iff its platform status string equals "running" — the
health probe, even when one is configured in the service spec, is never
consulted (the observed data carries no probe verdict). -/
theorem C9_calculateStatus_running_only (containers : List ContainerInfo) :
    (calculateStatus containers).replicas = containers.length ∧
    (calculateStatus containers).readyReplicas
      = (containers.filter (fun c => c.status == "running")).length := by
  refine ⟨rfl, ?_⟩
  show containers.foldl _ 0 = _
  rw [foldl_count_running containers 0]
  omega

/-- C9, counterexample to the claim as stated: one observed container in
state "running" whose configured health probe reports unhealthy — the code
counts it ready (`readyReplicas` = 1) while the claim's rule counts 0. -/
theorem C9_counterexample_probe_ignored :
    (calculateStatus [runningContainer]).readyReplicas = 1 ∧
    claimReadyReplicas true (fun _ => false) [runningContainer] = 0 := by
  decide
